import Mathlib

/-!
Shallow embedding of the ffwx diff tool (src/main.rs): the delimiter
constants, the context-window type `LineCtx`, the edit-entry type
`DiffLine`, the diff engine `compute_diff` and the encoder `write_output`,
together with theorems settling the specification's claims about them.
-/

namespace Ffwx

/-- Delimiter constant `CTX_NL` from src/main.rs line 10. -/
def CTX_NL : String := "\n"

/-- Delimiter constant `CTX_EOL` from src/main.rs line 11. -/
def CTX_EOL : String := "\n"

/-- Delimiter constant `CTX_MID` from src/main.rs line 12. -/
def CTX_MID : String := "\n"

/-- The kind of an edit entry (`DiffKind` in src/main.rs). -/
inductive DiffKind where
  | Added
  | Removed
  | Changed
deriving DecidableEq, Repr

/-- `DiffKind::to_header`: the fixed two-character marker of each kind. -/
def DiffKind.to_header : DiffKind → String
  | .Added => "+ "
  | .Removed => "- "
  | .Changed => "~ "

/-- Context window of a changed line (`LineCtx` in src/main.rs): the lines
before and the lines after, nearest first. -/
structure LineCtx where
  before : List String
  after : List String
deriving DecidableEq, Repr

/-- `LineCtx::new`: the empty context window. -/
def LineCtx.new : LineCtx := ⟨[], []⟩

/-- One iteration of the loop in `LineCtx::push` (src/main.rs lines 111-133)
at offset `j`: fetch the line `j+1` positions before index `i` and the line
`j+1` positions after it, appending whichever exist. -/
def LineCtx.pushStep (c : LineCtx) (v : List String) (i j : Nat) : LineCtx :=
  let b := if j + 1 ≤ i then v[i - j - 1]? else none
  let a := if i + j + 1 < v.length then v[i + j + 1]? else none
  match b, a with
  | some bb, some aa => ⟨c.before ++ [bb], c.after ++ [aa]⟩
  | some bb, none => ⟨c.before ++ [bb], c.after⟩
  | none, some aa => ⟨c.before, c.after ++ [aa]⟩
  | none, none => c

/-- `LineCtx::push`: run `pushStep` for `j in 0..amount`. -/
def LineCtx.push (c : LineCtx) (v : List String) (i amount : Nat) : LineCtx :=
  (List.range amount).foldl (fun acc j => acc.pushStep v i j) c

/-- `LineCtx::compare` (src/main.rs lines 135-148): false when the `after`
lengths or the `before` lengths differ, then elementwise comparison of the
`after` lists only. -/
def LineCtx.compare (a b : LineCtx) : Bool :=
  if a.after.length ≠ b.after.length ∨ a.before.length ≠ b.before.length then
    false
  else
    (a.after.zip b.after).all fun p => p.1 = p.2

/-- `LineCtx::before_str`: the `before` lines joined by `CTX_NL`, with a
trailing `CTX_NL` when `before` is nonempty. -/
def LineCtx.before_str (c : LineCtx) : String :=
  let e := if c.before.isEmpty then "" else CTX_NL
  String.intercalate CTX_NL c.before ++ e

/-- `LineCtx::after_str` (src/main.rs lines 155-158): the `after` lines
joined by `CTX_NL`, with a leading `CTX_NL` when `before` (sic, as in the
source) is nonempty. -/
def LineCtx.after_str (c : LineCtx) : String :=
  let s := if c.before.isEmpty then "" else CTX_NL
  s ++ String.intercalate CTX_NL c.after

/-- An edit entry (`DiffLine` in src/main.rs). -/
structure DiffLine where
  kind : DiffKind
  value : String
  ctx : LineCtx
deriving DecidableEq, Repr

/-- `DiffLine::new`: an entry with an empty context window. -/
def DiffLine.new (kind : DiffKind) (value : String) : DiffLine :=
  ⟨kind, value, LineCtx.new⟩

/-- `DiffLine::added`. -/
def DiffLine.added (value : String) : DiffLine := DiffLine.new .Added value

/-- `DiffLine::removed`. -/
def DiffLine.removed (value : String) : DiffLine := DiffLine.new .Removed value

/-- `DiffLine::changed`. -/
def DiffLine.changed (value : String) : DiffLine := DiffLine.new .Changed value

/-- The inner cross-comparison loop of `compute_diff` (src/main.rs lines
222-264), returning the two buffers as they stand when the loop breaks.
`s` and `m` are the mismatching lines at indices `i` of `source` and `j` of
`modified`; `x` and `y` are the lookahead offsets. Vec::push appends at the
end and Vec::pop drops the last element, hence `++ [·]` and `dropLast`. -/
def innerLoop (source modified : List String) (s m : String) (i j : Nat)
    (src_buf mod_buf : List String) (x y : Nat) : List String × List String :=
  match h1 : source[i + x]?, h2 : modified[j + y]? with
  | some ns, some nm =>
    if ns = nm then (src_buf, mod_buf)
    else
      let src1 := src_buf ++ [ns]
      let mod1 := mod_buf ++ [nm]
      if m = ns then (src1.dropLast, mod1.dropLast.dropLast)
      else if s = nm then (src1.dropLast.dropLast, mod1.dropLast)
      else innerLoop source modified s m i j src1 mod1 (x + 1) (y + 1)
  | some ns, none =>
    if m = ns then (src_buf, mod_buf)
    else innerLoop source modified s m i j (src_buf ++ [ns]) mod_buf (x + 1) (y + 1)
  | none, some nm =>
    if s = nm then (src_buf, mod_buf)
    else innerLoop source modified s m i j src_buf (mod_buf ++ [nm]) (x + 1) (y + 1)
  | none, none => (src_buf, mod_buf)
termination_by (source.length - (i + x)) + (modified.length - (j + y))
decreasing_by
  all_goals
    first
    | { have ha := (List.getElem?_eq_some_iff.mp h1).1
        have hb := (List.getElem?_eq_some_iff.mp h2).1
        omega }
    | { have ha := (List.getElem?_eq_some_iff.mp h1).1
        have hb := List.getElem?_eq_none_iff.mp h2
        omega }
    | { have ha := List.getElem?_eq_none_iff.mp h1
        have hb := (List.getElem?_eq_some_iff.mp h2).1
        omega }

/-- The main loop of `compute_diff` (src/main.rs lines 204-296), written as
recursion on the cursor pair `(i, j)`. Each arm appends its entries and
continues with the cursors as the Rust loop leaves them (the trailing
`i += 1; j += 1` included). When both cursors are past the end with the
guard not yet taken, the Rust loop body does nothing and the guard breaks
on the next pass, so that branch yields no entries. -/
def mainLoop (source modified : List String) (i j : Nat) : List DiffLine :=
  if source.length ≤ i ∧ modified.length ≤ j then []
  else
    match h1 : source[i]?, h2 : modified[j]? with
    | some s, some m =>
      if s = m then mainLoop source modified (i + 1) (j + 1)
      else
        let bufs := innerLoop source modified s m i j [s] [m] 1 1
        if bufs.2.length = bufs.1.length ∧ bufs.2 ≠ [] then
          bufs.2.map DiffLine.changed ++ mainLoop source modified (i + 1) (j + 1)
        else if bufs.1.length < bufs.2.length then
          bufs.2.map DiffLine.added ++
            mainLoop source modified (i + 1) (j + bufs.2.length + 1)
        else
          bufs.1.map DiffLine.removed ++
            mainLoop source modified (i + bufs.1.length + 1) (j + 1)
    | none, some m => DiffLine.added m :: mainLoop source modified (i + 1) (j + 1)
    | some s, none => DiffLine.removed s :: mainLoop source modified (i + 1) (j + 1)
    | none, none => []
termination_by (source.length - i) + (modified.length - j)
decreasing_by
  all_goals
    first
    | { have ha := (List.getElem?_eq_some_iff.mp h1).1
        have hb := (List.getElem?_eq_some_iff.mp h2).1
        omega }
    | { have ha := (List.getElem?_eq_some_iff.mp h1).1
        have hb := List.getElem?_eq_none_iff.mp h2
        omega }
    | { have ha := List.getElem?_eq_none_iff.mp h1
        have hb := (List.getElem?_eq_some_iff.mp h2).1
        omega }

/-- `compute_diff` (src/main.rs lines 189-299). -/
def compute_diff (source modified : List String) : List DiffLine :=
  mainLoop source modified 0 0

/-- `write_output` (src/main.rs lines 301-317) without the I/O shell: the
text buffer it writes, one record per entry. -/
def write_output (lines : List DiffLine) : String :=
  lines.foldl
    (fun buf line =>
      buf ++ line.ctx.before_str ++ line.kind.to_header ++ line.value ++
        line.ctx.after_str ++ "\n")
    ""

/-- The `diff` subcommand's arguments (`DiffArgs` in src/main.rs). -/
structure DiffArgs where
  source_file : String
  modified_file : String
  revert : Bool
  human_readable : Bool

set_option linter.unusedVariables false in
/-- The script that `main`'s `diff` arm computes and hands to `write_output`
(src/main.rs lines 323-348) once the two files are read as line lists:
`compute_diff` of the two line lists. `args.revert` and
`args.human_readable` are never read on this path. -/
def run_diff (args : DiffArgs) (slines mlines : List String) : List DiffLine :=
  compute_diff slines mlines

/-- The values of a script's `Removed` entries, in script order (used to
state the specification's LCS-alignment claim). -/
def removedValues (script : List DiffLine) : List String :=
  (script.filter fun e => e.kind = DiffKind.Removed).map DiffLine.value

/-! Step equations for `innerLoop` and `mainLoop`: one clean rewrite per
branch of the two loops, so later proofs never unfold the well-founded
definitions directly. -/

theorem innerLoop_stop_eq (source modified : List String) (s m : String) (i j : Nat)
    (src_buf mod_buf : List String) (x y : Nat) (c : String)
    (h1 : source[i + x]? = some c) (h2 : modified[j + y]? = some c) :
    innerLoop source modified s m i j src_buf mod_buf x y = (src_buf, mod_buf) := by
  rw [innerLoop.eq_def]
  split <;> simp_all

theorem innerLoop_stop_none (source modified : List String) (s m : String) (i j : Nat)
    (src_buf mod_buf : List String) (x y : Nat)
    (h1 : source[i + x]? = none) (h2 : modified[j + y]? = none) :
    innerLoop source modified s m i j src_buf mod_buf x y = (src_buf, mod_buf) := by
  rw [innerLoop.eq_def]
  split <;> simp_all

theorem innerLoop_step_both (source modified : List String) (s m : String) (i j : Nat)
    (src_buf mod_buf : List String) (x y : Nat) (ns nm : String)
    (h1 : source[i + x]? = some ns) (h2 : modified[j + y]? = some nm) (hne : ns ≠ nm) :
    innerLoop source modified s m i j src_buf mod_buf x y =
      if m = ns then ((src_buf ++ [ns]).dropLast, ((mod_buf ++ [nm]).dropLast).dropLast)
      else if s = nm then (((src_buf ++ [ns]).dropLast).dropLast, (mod_buf ++ [nm]).dropLast)
      else innerLoop source modified s m i j (src_buf ++ [ns]) (mod_buf ++ [nm]) (x + 1) (y + 1) := by
  rw [innerLoop.eq_def]
  split <;> simp_all

theorem innerLoop_step_src (source modified : List String) (s m : String) (i j : Nat)
    (src_buf mod_buf : List String) (x y : Nat) (ns : String)
    (h1 : source[i + x]? = some ns) (h2 : modified[j + y]? = none) :
    innerLoop source modified s m i j src_buf mod_buf x y =
      if m = ns then (src_buf, mod_buf)
      else innerLoop source modified s m i j (src_buf ++ [ns]) mod_buf (x + 1) (y + 1) := by
  rw [innerLoop.eq_def]
  split <;> simp_all

theorem innerLoop_step_mod (source modified : List String) (s m : String) (i j : Nat)
    (src_buf mod_buf : List String) (x y : Nat) (nm : String)
    (h1 : source[i + x]? = none) (h2 : modified[j + y]? = some nm) :
    innerLoop source modified s m i j src_buf mod_buf x y =
      if s = nm then (src_buf, mod_buf)
      else innerLoop source modified s m i j src_buf (mod_buf ++ [nm]) (x + 1) (y + 1) := by
  rw [innerLoop.eq_def]
  split <;> simp_all

theorem mainLoop_stop (source modified : List String) (i j : Nat)
    (h : source.length ≤ i ∧ modified.length ≤ j) :
    mainLoop source modified i j = [] := by
  rw [mainLoop.eq_def, if_pos h]

theorem mainLoop_eq_step (source modified : List String) (i j : Nat) (a : String)
    (h1 : source[i]? = some a) (h2 : modified[j]? = some a) :
    mainLoop source modified i j = mainLoop source modified (i + 1) (j + 1) := by
  have hi : i < source.length := (List.getElem?_eq_some_iff.mp h1).1
  rw [mainLoop.eq_def, if_neg (by omega)]
  split <;> simp_all

theorem mainLoop_ne_step (source modified : List String) (i j : Nat) (a b : String)
    (p q : List String)
    (h1 : source[i]? = some a) (h2 : modified[j]? = some b) (hne : a ≠ b)
    (hbuf : innerLoop source modified a b i j [a] [b] 1 1 = (p, q)) :
    mainLoop source modified i j =
      if q.length = p.length ∧ q ≠ [] then
        q.map DiffLine.changed ++ mainLoop source modified (i + 1) (j + 1)
      else if p.length < q.length then
        q.map DiffLine.added ++ mainLoop source modified (i + 1) (j + q.length + 1)
      else
        p.map DiffLine.removed ++ mainLoop source modified (i + p.length + 1) (j + 1) := by
  have hi : i < source.length := (List.getElem?_eq_some_iff.mp h1).1
  rw [mainLoop.eq_def, if_neg (by omega)]
  split <;> simp_all

theorem mainLoop_add_step (source modified : List String) (i j : Nat) (b : String)
    (h1 : source[i]? = none) (h2 : modified[j]? = some b) :
    mainLoop source modified i j =
      DiffLine.added b :: mainLoop source modified (i + 1) (j + 1) := by
  have hj : j < modified.length := (List.getElem?_eq_some_iff.mp h2).1
  rw [mainLoop.eq_def, if_neg (by omega)]
  split <;> simp_all

theorem mainLoop_rem_step (source modified : List String) (i j : Nat) (a : String)
    (h1 : source[i]? = some a) (h2 : modified[j]? = none) :
    mainLoop source modified i j =
      DiffLine.removed a :: mainLoop source modified (i + 1) (j + 1) := by
  have hi : i < source.length := (List.getElem?_eq_some_iff.mp h1).1
  rw [mainLoop.eq_def, if_neg (by omega)]
  split <;> simp_all

/-! Symbolic facts about the main loop: equal suffixes yield no entries, an
exhausted side drains the other as a pure run, an equal prefix is skipped,
and every emitted entry's context window stays empty. -/

theorem mainLoop_of_drop_eq (source modified : List String) (i j : Nat)
    (h : source.drop i = modified.drop j) : mainLoop source modified i j = [] := by
  cases hs : source[i]? with
  | none =>
    have hi : source.length ≤ i := List.getElem?_eq_none_iff.mp hs
    have hd : modified.drop j = [] := by
      rw [← h]
      exact List.drop_eq_nil_of_le hi
    exact mainLoop_stop source modified i j ⟨hi, List.drop_eq_nil_iff.mp hd⟩
  | some a =>
    have hm : modified[j]? = some a := by
      rw [← List.head?_drop, ← h, List.head?_drop]
      exact hs
    rw [mainLoop_eq_step source modified i j a hs hm]
    exact mainLoop_of_drop_eq source modified (i + 1) (j + 1) (by
      have h1 := congrArg (List.drop 1) h
      simpa [List.drop_drop] using h1)
termination_by source.length - i
decreasing_by
  have := (List.getElem?_eq_some_iff.mp hs).1
  omega

theorem mainLoop_nil_source (modified : List String) (i j : Nat) :
    mainLoop [] modified i j = (modified.drop j).map DiffLine.added := by
  cases hm : modified[j]? with
  | none =>
    have hj : modified.length ≤ j := List.getElem?_eq_none_iff.mp hm
    rw [mainLoop_stop [] modified i j ⟨by simp, hj⟩, List.drop_eq_nil_of_le hj]
    rfl
  | some b =>
    have hj : j < modified.length := (List.getElem?_eq_some_iff.mp hm).1
    rw [mainLoop_add_step [] modified i j b (by simp) hm,
      mainLoop_nil_source modified (i + 1) (j + 1), List.drop_eq_getElem_cons hj]
    have hb : modified[j] = b := (List.getElem?_eq_some_iff.mp hm).2
    rw [List.map_cons, hb]
termination_by modified.length - j
decreasing_by omega

theorem mainLoop_nil_mod (source : List String) (i j : Nat) :
    mainLoop source [] i j = (source.drop i).map DiffLine.removed := by
  cases hs : source[i]? with
  | none =>
    have hi : source.length ≤ i := List.getElem?_eq_none_iff.mp hs
    rw [mainLoop_stop source [] i j ⟨hi, by simp⟩, List.drop_eq_nil_of_le hi]
    rfl
  | some a =>
    have hi : i < source.length := (List.getElem?_eq_some_iff.mp hs).1
    rw [mainLoop_rem_step source [] i j a hs (by simp),
      mainLoop_nil_mod source (i + 1) (j + 1), List.drop_eq_getElem_cons hi]
    have ha : source[i] = a := (List.getElem?_eq_some_iff.mp hs).2
    rw [List.map_cons, ha]
termination_by source.length - i
decreasing_by omega

theorem mainLoop_append_pre (pre s2 m2 : List String) (i : Nat) (hi : i ≤ pre.length) :
    mainLoop (pre ++ s2) (pre ++ m2) i i =
      mainLoop (pre ++ s2) (pre ++ m2) pre.length pre.length := by
  rcases Nat.lt_or_ge i pre.length with hlt | hge
  · have h1 : (pre ++ s2)[i]? = some pre[i] := by
      rw [List.getElem?_append_left hlt]
      exact List.getElem?_eq_getElem hlt
    have h2 : (pre ++ m2)[i]? = some pre[i] := by
      rw [List.getElem?_append_left hlt]
      exact List.getElem?_eq_getElem hlt
    rw [mainLoop_eq_step (pre ++ s2) (pre ++ m2) i i pre[i] h1 h2]
    exact mainLoop_append_pre pre s2 m2 (i + 1) hlt
  · rw [Nat.le_antisymm hi hge]
termination_by pre.length - i
decreasing_by omega

theorem mainLoop_ctx_new (source modified : List String) (i j : Nat) :
    ∀ e ∈ mainLoop source modified i j, e.ctx = LineCtx.new := by
  cases hs : source[i]? with
  | none =>
    cases hm : modified[j]? with
    | none =>
      rw [mainLoop_stop source modified i j
        ⟨List.getElem?_eq_none_iff.mp hs, List.getElem?_eq_none_iff.mp hm⟩]
      simp
    | some b =>
      rw [mainLoop_add_step source modified i j b hs hm]
      intro e he
      rcases List.mem_cons.mp he with rfl | he2
      · rfl
      · exact mainLoop_ctx_new source modified (i + 1) (j + 1) e he2
  | some a =>
    cases hm : modified[j]? with
    | none =>
      rw [mainLoop_rem_step source modified i j a hs hm]
      intro e he
      rcases List.mem_cons.mp he with rfl | he2
      · rfl
      · exact mainLoop_ctx_new source modified (i + 1) (j + 1) e he2
    | some b =>
      by_cases hab : a = b
      · rw [mainLoop_eq_step source modified i j a hs (hab ▸ hm)]
        exact mainLoop_ctx_new source modified (i + 1) (j + 1)
      · rcases hbuf : innerLoop source modified a b i j [a] [b] 1 1 with ⟨p, q⟩
        rw [mainLoop_ne_step source modified i j a b p q hs hm hab hbuf]
        intro e he
        split at he
        · rcases List.mem_append.mp he with he2 | he2
          · obtain ⟨v, _, rfl⟩ := List.mem_map.mp he2
            rfl
          · exact mainLoop_ctx_new source modified (i + 1) (j + 1) e he2
        · split at he
          · rcases List.mem_append.mp he with he2 | he2
            · obtain ⟨v, _, rfl⟩ := List.mem_map.mp he2
              rfl
            · exact mainLoop_ctx_new source modified (i + 1) (j + q.length + 1) e he2
          · rcases List.mem_append.mp he with he2 | he2
            · obtain ⟨v, _, rfl⟩ := List.mem_map.mp he2
              rfl
            · exact mainLoop_ctx_new source modified (i + p.length + 1) (j + 1) e he2
termination_by (source.length - i) + (modified.length - j)
decreasing_by
  all_goals
    first
    | { have ha := (List.getElem?_eq_some_iff.mp hs).1
        have hb := (List.getElem?_eq_some_iff.mp hm).1
        omega }
    | { have ha := (List.getElem?_eq_some_iff.mp hs).1
        omega }
    | { have hb := (List.getElem?_eq_some_iff.mp hm).1
        omega }

theorem diff_single_replace (pre suf : List String) (o w : String) (h : w ≠ o) :
    compute_diff (pre ++ o :: suf) (pre ++ w :: suf) = [DiffLine.changed w] := by
  have h1 : (pre ++ o :: suf)[pre.length]? = some o := by
    rw [List.getElem?_append_right (Nat.le_refl _)]
    simp
  have h2 : (pre ++ w :: suf)[pre.length]? = some w := by
    rw [List.getElem?_append_right (Nat.le_refl _)]
    simp
  have hnext : ∀ z : String, (pre ++ z :: suf)[pre.length + 1]? = suf[0]? := by
    intro z
    rw [List.getElem?_append_right (by omega)]
    simp
  have hbuf : innerLoop (pre ++ o :: suf) (pre ++ w :: suf) o w
      pre.length pre.length [o] [w] 1 1 = ([o], [w]) := by
    cases suf with
    | nil =>
      exact innerLoop_stop_none _ _ _ _ _ _ _ _ _ _
        (by rw [hnext o]; rfl) (by rw [hnext w]; rfl)
    | cons c rest =>
      exact innerLoop_stop_eq _ _ _ _ _ _ _ _ _ _ c
        (by rw [hnext o]; simp) (by rw [hnext w]; simp)
  unfold compute_diff
  rw [mainLoop_append_pre pre (o :: suf) (w :: suf) 0 (Nat.zero_le _),
    mainLoop_ne_step (pre ++ o :: suf) (pre ++ w :: suf) pre.length pre.length
      o w [o] [w] h1 h2 (fun he => h he.symm) hbuf,
    if_pos ⟨rfl, by simp⟩,
    mainLoop_of_drop_eq (pre ++ o :: suf) (pre ++ w :: suf)
      (pre.length + 1) (pre.length + 1)
      (by rw [List.drop_append 1, List.drop_append 1]; rfl)]
  simp

/-! Evaluations of `compute_diff` at the concrete inputs the claims use,
each following the loop trace step by step. -/

theorem diff_nil_source_eval : compute_diff [] ["a"] = [DiffLine.added "a"] := by
  unfold compute_diff
  rw [mainLoop_nil_source ["a"] 0 0]
  rfl

theorem diff_ab_nil_eval :
    compute_diff ["a", "b"] [] = [DiffLine.removed "a", DiffLine.removed "b"] := by
  unfold compute_diff
  rw [mainLoop_nil_mod ["a", "b"] 0 0]
  rfl

theorem diff_aba_ba_eval :
    compute_diff ["a", "b", "a"] ["b", "a"] = [DiffLine.removed "a"] := by
  have hbuf : innerLoop ["a", "b", "a"] ["b", "a"] "a" "b" 0 0 ["a"] ["b"] 1 1 =
      (["a"], []) := by
    rw [innerLoop_step_both ["a", "b", "a"] ["b", "a"] "a" "b" 0 0 ["a"] ["b"] 1 1
      "b" "a" rfl rfl (by decide), if_pos rfl]
    rfl
  have h21 : mainLoop ["a", "b", "a"] ["b", "a"] 2 1 = [] := by
    rw [mainLoop_eq_step ["a", "b", "a"] ["b", "a"] 2 1 "a" rfl rfl]
    exact mainLoop_stop _ _ 3 2 (by simp)
  unfold compute_diff
  rw [mainLoop_ne_step ["a", "b", "a"] ["b", "a"] 0 0 "a" "b" ["a"] [] rfl rfl
    (by decide) hbuf, if_neg (by simp), if_neg (by simp)]
  simp [h21]

theorem diff_aba_ab_eval :
    compute_diff ["a", "b", "a"] ["a", "b"] = [DiffLine.removed "a"] := by
  unfold compute_diff
  rw [mainLoop_eq_step ["a", "b", "a"] ["a", "b"] 0 0 "a" rfl rfl,
    mainLoop_eq_step ["a", "b", "a"] ["a", "b"] 1 1 "b" rfl rfl,
    mainLoop_rem_step ["a", "b", "a"] ["a", "b"] 2 2 "a" rfl rfl,
    mainLoop_stop ["a", "b", "a"] ["a", "b"] 3 3 (by simp)]

theorem diff_ab_b_eval :
    compute_diff ["a", "b"] ["b"] = [DiffLine.changed "b", DiffLine.removed "b"] := by
  have hbuf : innerLoop ["a", "b"] ["b"] "a" "b" 0 0 ["a"] ["b"] 1 1 =
      (["a"], ["b"]) := by
    rw [innerLoop_step_src ["a", "b"] ["b"] "a" "b" 0 0 ["a"] ["b"] 1 1 "b" rfl rfl,
      if_pos rfl]
  have h11 : mainLoop ["a", "b"] ["b"] 1 1 = [DiffLine.removed "b"] := by
    rw [mainLoop_rem_step ["a", "b"] ["b"] 1 1 "b" rfl rfl,
      mainLoop_stop ["a", "b"] ["b"] 2 2 (by simp)]
  unfold compute_diff
  rw [mainLoop_ne_step ["a", "b"] ["b"] 0 0 "a" "b" ["a"] ["b"] rfl rfl
    (by decide) hbuf, if_pos ⟨rfl, by simp⟩]
  simp [h11]

/-! Claim theorems. -/

/-- Claim C1: the round-trip law `apply(source, diff(source, modified)) =
modified` cannot hold for any apply function, because `compute_diff` sends
the two distinct modified files `["b","a"]` and `["a","b"]` of the source
`["a","b","a"]` to the same one-entry script. -/
theorem claim1_roundtrip_impossible :
    ¬ ∃ app : List String → List DiffLine → List String,
      ∀ source modified : List String,
        app source (compute_diff source modified) = modified := by
  rintro ⟨app, happ⟩
  have h1 := happ ["a", "b", "a"] ["b", "a"]
  have h2 := happ ["a", "b", "a"] ["a", "b"]
  rw [diff_aba_ba_eval] at h1
  rw [diff_aba_ab_eval] at h2
  have h3 : (["b", "a"] : List String) = ["a", "b"] := h1.symm.trans h2
  simp at h3

/-- Claim C2 (amended): replacing exactly one line of a file by a different
line yields a script with exactly one Changed (Modified) entry carrying the
new value — whose context window is empty, not the neighbor window the
claim states. -/
theorem claim2_single_replacement_changed (pre suf : List String) (o w : String)
    (h : w ≠ o) :
    compute_diff (pre ++ o :: suf) (pre ++ w :: suf) = [DiffLine.changed w] :=
  diff_single_replace pre suf o w h

/-- Claim C2 witness: the scenario source `["a","b","c"]`, modified
`["a","x","c"]` instantiates the theorem. -/
theorem claim2_witness :
    ("x" : String) ≠ "b" ∧
      compute_diff ["a", "b", "c"] ["a", "x", "c"] = [DiffLine.changed "x"] :=
  ⟨by decide, claim2_single_replacement_changed ["a"] ["c"] "b" "x" (by decide)⟩

/-- Claim C2 counterexample: in the scenario the script's single entry does
not carry the window before "a" / after "c" — compute_diff leaves every
context window empty. -/
theorem claim2_counterexample :
    ¬ ∃ e : DiffLine, compute_diff ["a", "b", "c"] ["a", "x", "c"] = [e] ∧
      e.ctx.before = ["a"] ∧ e.ctx.after = ["c"] := by
  rintro ⟨e, he, hb, -⟩
  have hev : compute_diff ["a", "b", "c"] ["a", "x", "c"] = [DiffLine.changed "x"] :=
    diff_single_replace ["a"] ["c"] "b" "x" (by decide)
  rw [hev] at he
  simp only [List.cons.injEq, and_true] at he
  subst he
  simp [DiffLine.changed, DiffLine.new, LineCtx.new] at hb

/-- Claim C3 counterexample: for source `["a","b"]` and modified `["b"]`
there is no longest common subsequence whose complement in the source is
the script's Removed values — compute_diff does not follow LCS alignment. -/
theorem claim3_counterexample :
    ¬ ∃ c : List String,
      (c.Sublist ["a", "b"] ∧ c.Sublist ["b"] ∧
        ∀ d : List String, d.Sublist ["a", "b"] → d.Sublist ["b"] →
          d.length ≤ c.length) ∧
      (removedValues (compute_diff ["a", "b"] ["b"]) ++ c).Perm ["a", "b"] := by
  rintro ⟨c, ⟨hcs, hcm, hmax⟩, hperm⟩
  have heval : removedValues (compute_diff ["a", "b"] ["b"]) = ["b"] := by
    rw [diff_ab_b_eval]
    rfl
  rw [heval] at hperm
  have hc : c = [] ∨ c = ["b"] := by
    cases hcm with
    | cons _ h9 => exact Or.inl (List.sublist_nil.mp h9)
    | cons₂ _ h9 =>
      rw [List.sublist_nil.mp h9]
      exact Or.inr rfl
  rcases hc with rfl | rfl
  · have h5 := hmax ["b"] (List.Sublist.cons "a" (List.Sublist.refl ["b"]))
      (List.Sublist.refl ["b"])
    simp at h5
  · have h6 : "a" ∈ (["b"] ++ ["b"] : List String) := hperm.mem_iff.mpr (by simp)
    simp at h6

/-- Claim C3 (amended): compute_diff is not LCS alignment; for source
`["a","b"]` and modified `["b"]` it emits a Changed "b" and a Removed "b"
entry, where LCS alignment would give a single Removed "a". -/
theorem claim3_not_lcs :
    compute_diff ["a", "b"] ["b"] = [DiffLine.changed "b", DiffLine.removed "b"] :=
  diff_ab_b_eval

/-- Claim C4: identity — diffing any file against itself yields the empty
script. -/
theorem claim4_diff_identity (F : List String) : compute_diff F F = [] :=
  mainLoop_of_drop_eq F F 0 0 rfl

/-- Claim C5: every entry of a script produced by compute_diff has an empty
context window on both sides, since entries are built by
DiffLine.added/removed/changed and the context is never populated. -/
theorem claim5_ctx_empty (source modified : List String) (e : DiffLine)
    (he : e ∈ compute_diff source modified) :
    e.ctx.before = [] ∧ e.ctx.after = [] := by
  have h := mainLoop_ctx_new source modified 0 0 e he
  exact ⟨by rw [h]; rfl, by rw [h]; rfl⟩

/-- Claim C5 witness: the Added "a" entry of compute_diff [] ["a"] has empty
context sides. -/
theorem claim5_witness :
    DiffLine.added "a" ∈ compute_diff [] ["a"] ∧
      (DiffLine.added "a").ctx.before = [] ∧ (DiffLine.added "a").ctx.after = [] :=
  have hmem : DiffLine.added "a" ∈ compute_diff [] ["a"] := by
    rw [diff_nil_source_eval]
    exact List.mem_singleton.mpr rfl
  ⟨hmem, claim5_ctx_empty [] ["a"] (DiffLine.added "a") hmem⟩

/-- Claim C6 (code bug): LineCtx.compare returns true for windows whose
before sides differ as strings — its loop compares only the after side, so
the claimed two-sided iff fails. -/
theorem claim6_compare_ignores_before :
    LineCtx.compare ⟨["x"], []⟩ ⟨["y"], []⟩ = true ∧
      (⟨["x"], []⟩ : LineCtx).before ≠ (⟨["y"], []⟩ : LineCtx).before := by
  refine ⟨rfl, ?_⟩
  simp

/-- Claim C7 (code bug): main never reads the revert flag, so the script
computed with revert=true equals — rather than reverses — the script
computed with revert=false. -/
theorem claim7_revert_ignored :
    run_diff ⟨"s", "m", true, false⟩ ["a", "b"] [] =
        run_diff ⟨"s", "m", false, false⟩ ["a", "b"] [] ∧
      run_diff ⟨"s", "m", true, false⟩ ["a", "b"] [] ≠
        (run_diff ⟨"s", "m", true, false⟩ ["a", "b"] []).reverse := by
  refine ⟨rfl, ?_⟩
  have he : run_diff ⟨"s", "m", true, false⟩ ["a", "b"] [] =
      [DiffLine.removed "a", DiffLine.removed "b"] := diff_ab_nil_eval
  rw [he]
  simp [DiffLine.removed, DiffLine.new]

/-- Claim C8 (code bug): after_str keys its leading separator on the before
side, so with before ["a"] and after absent it renders "\n" instead of the
empty string, while with before absent and after ["c"] it renders "c" with
no preceding separator; a full record then carries a stray newline. -/
theorem claim8_after_str_bug :
    LineCtx.after_str ⟨["a"], []⟩ = "\n" ∧ ("\n" : String) ≠ "" ∧
      LineCtx.after_str ⟨[], ["c"]⟩ = "c" ∧
      write_output [⟨DiffKind.Added, "v", ⟨["a"], []⟩⟩] = "a\n+ v\n\n" :=
  ⟨rfl, by decide, rfl, rfl⟩

/-- Claim C9 counterexample: the three delimiter tokens are not pairwise
distinct and not distinct from the record-terminator newline. -/
theorem claim9_counterexample :
    ¬ (CTX_NL ≠ CTX_EOL ∧ CTX_NL ≠ CTX_MID ∧ CTX_EOL ≠ CTX_MID ∧
      CTX_NL ≠ "\n" ∧ CTX_EOL ≠ "\n" ∧ CTX_MID ≠ "\n") := by
  intro h9
  exact h9.1 rfl

/-- Claim C9 (amended): all three delimiter tokens are defined as the
newline string, equal to one another and to the record terminator. -/
theorem claim9_delims_all_newline :
    CTX_NL = "\n" ∧ CTX_EOL = "\n" ∧ CTX_MID = "\n" := ⟨rfl, rfl, rfl⟩

/-- Claim C10: compute_diff is total (defined here by well-founded
recursion with no failure case), and an empty source or an empty modified
degrades to a pure insertion or deletion run. -/
theorem claim10_total_empty_runs (source modified : List String) :
    compute_diff [] modified = modified.map DiffLine.added ∧
      compute_diff source [] = source.map DiffLine.removed := by
  constructor
  · unfold compute_diff
    rw [mainLoop_nil_source modified 0 0, List.drop_zero]
  · unfold compute_diff
    rw [mainLoop_nil_mod source 0 0, List.drop_zero]

end Ffwx
